import Mathlib

/-!
Verification of the `httpx` adaptation core.

Shallow embedding of `src/httpx.go` (package `httpx`): the `Response`
builder, the structured error-code factory `ErrorJSONCode`, and the
resolver `fireAfterMiddleware` that turns a handler's returned outcome
into headers, a status line and a body written on the response sink.

Modelling conventions:
* Go `map[string]string` values become association lists with
  `mapSet` / `mapGet` (a Go map never holds two bindings for one key;
  `mapSet` keeps that invariant).
* The `io.Writer` sink and the per-request effect state become the
  `World` structure; writes append to its fields.
* The deferred body closures stored in `Response.Copy` become the
  inductive `BodyCopy`, one constructor per closure in the source, with
  the interpreter `runCopy` translating each closure body.  Whether the
  underlying I/O or JSON encoding fails (client disconnect, encoder
  error) is environment-chosen, via `CopyEnv`.
* Calls to the process-wide hooks (`w.Header().Set`, `w.WriteHeader`,
  the copy invocation, `CopyErrorHandler`, `DefaultAfterMiddleware`) are
  recorded as an `Event` trace so that multiplicity and ordering claims
  can be stated.
* A Go panic (nil function call in `Response.Error`) is modelled by
  `Option.none`.
-/

namespace Httpx

/-- JSON values, the image of the Go `any` values this package encodes. -/
inductive Jval where
  | null
  | str (s : String)
  | num (n : Int)
  | obj (fields : List (String × Jval))

/-- Go map assignment `m[k] = v` on an association-list model: replaces
the binding for `k` in place, or appends one. -/
def mapSet {α : Type} (m : List (String × α)) (k : String) (v : α) :
    List (String × α) :=
  match m with
  | [] => [(k, v)]
  | p :: rest => if p.1 = k then (k, v) :: rest else p :: mapSet rest k v

/-- Go map lookup `m[k]` (first binding; the `mapSet` invariant keeps at
most one binding per key). -/
def mapGet {α : Type} (m : List (String × α)) (k : String) : Option α :=
  match m with
  | [] => none
  | p :: rest => if p.1 = k then some p.2 else mapGet rest k

/-- Lookup that takes the *last* binding for a key: the value a sequence
of Go map assignments in list order leaves behind. -/
def lastGet {α : Type} (m : List (String × α)) (k : String) : Option α :=
  match m with
  | [] => none
  | p :: rest =>
    match lastGet rest k with
    | some v => some v
    | none => if p.1 = k then some p.2 else none

/-- `orElseOpt o fallback` is `o` when it holds a value, else `fallback`. -/
def orElseOpt {α : Type} (o fallback : Option α) : Option α :=
  match o with
  | some v => some v
  | none => fallback

/-- Folding the entries of `m` into `acc` with Go map assignment:
`for k, v := range m { acc[k] = v }`. -/
def mapMerge {α : Type} (acc m : List (String × α)) : List (String × α) :=
  m.foldl (fun a p => mapSet a p.1 p.2) acc

/-- Escape of one character inside a JSON string literal. -/
def jsonEscapeChar (c : Char) : String :=
  if c = '"' then "\\\"" else if c = '\\' then "\\\\" else String.singleton c

/-- JSON string-literal escaping. -/
def jsonEscape (s : String) : String :=
  String.join (s.data.map jsonEscapeChar)

mutual
/-- The JSON text `encoding/json` produces for a value.  (Go sorts map
keys when encoding; every object this package itself builds is already
in sorted key order, so encoding fields in list order coincides.) -/
def encodeJval : Jval → String
  | .null => "null"
  | .str s => "\"" ++ jsonEscape s ++ "\""
  | .num n => toString n
  | .obj fields => "\x7b" ++ encodeFields fields ++ "\x7d"

/-- Comma-separated encoding of the fields of a JSON object. -/
def encodeFields : List (String × Jval) → String
  | [] => ""
  | [p] => "\"" ++ jsonEscape p.1 ++ "\":" ++ encodeJval p.2
  | p :: q :: rest =>
      "\"" ++ jsonEscape p.1 ++ "\":" ++ encodeJval p.2 ++ ","
        ++ encodeFields (q :: rest)
end

/-- The deferred body actions a `Response.Copy` field can hold; one
constructor per closure in the source.  Readers are modelled by the
string of bytes they deliver. -/
inductive BodyCopy where
  /-- `func(w io.Writer) error { return json.NewEncoder(w).Encode(value) }` -/
  | json (value : Jval)
  /-- `func(w io.Writer) error { _, err := io.Copy(w, strings.NewReader(s)); return err }` -/
  | text (s : String)
  /-- `func(w io.Writer) error { _, err := io.Copy(w, reader); return err }` -/
  | reader (s : String)
  /-- `func(w io.Writer) error { defer reader.Close(); _, err := io.Copy(w, reader); return err }` -/
  | readCloser (s : String)

/-- Environment choices the body actions are at the mercy of: whether
JSON encoding fails and whether the streaming copy fails (e.g. the
client disconnects). -/
structure CopyEnv where
  jsonEncodeFails : Bool
  ioCopyFails : Bool
deriving DecidableEq, Repr

/-- The observable per-request state: the sink's header map, every
status line written, every body chunk written, and whether the body
source (when it is a ReadCloser) has been closed. -/
structure World where
  headerMap : List (String × String)
  statuses : List Int
  body : List String
  readerClosed : Bool
deriving DecidableEq, Repr

/-- A fresh sink: nothing written, source not closed. -/
def emptyWorld : World :=
  { headerMap := [], statuses := [], body := [], readerClosed := false }

/-- Interpreter for the body closures: given the environment and the
current world, returns the new world and the error the closure returns.
The `readCloser` case closes the source on both exit paths (the Go
closure defers `reader.Close()`). -/
def runCopy (c : BodyCopy) (env : CopyEnv) (w : World) :
    World × Option String :=
  match c with
  | .json v =>
    if env.jsonEncodeFails then (w, some "json: encode error")
    else ({ w with body := w.body ++ [encodeJval v ++ "\n"] }, none)
  | .text s =>
    if env.ioCopyFails then (w, some "io: copy error")
    else ({ w with body := w.body ++ [s] }, none)
  | .reader s =>
    if env.ioCopyFails then (w, some "io: copy error")
    else ({ w with body := w.body ++ [s] }, none)
  | .readCloser s =>
    if env.ioCopyFails then ({ w with readerClosed := true }, some "io: copy error")
    else ({ w with body := w.body ++ [s], readerClosed := true }, none)

/-- `type Response struct { Code int; headers map[string]string; Copy func(io.Writer) error }`.
`headers` is `Option`-valued because a Go map can be `nil` (the builder
constructors always initialise it). -/
structure Response where
  Code : Int
  headers : Option (List (String × String))
  Copy : Option BodyCopy

/-- `func Code(code int) *Response` — empty response with the status set. -/
def Code (code : Int) : Response :=
  { Code := code, headers := some [], Copy := none }

/-- `func NoContent() *Response` — empty 200 (`http.StatusOK`) response. -/
def NoContent : Response :=
  Code 200

/-- `func (r *Response) JSON(value any) *Response` — sets the
`Content-Type: application/json` header and a JSON-encoding body action.
(Assigning into a nil map panics in Go; that state is unreachable
through this package's constructors and is not modelled: a nil header
map stays nil here.) -/
def Response.JSON (r : Response) (value : Jval) : Response :=
  { r with
    headers := r.headers.map (fun hs => mapSet hs "Content-Type" "application/json"),
    Copy := some (.json value) }

/-- `func (r *Response) Text(s string) *Response` — plain-text body
action; no header is touched. -/
def Response.Text (r : Response) (s : String) : Response :=
  { r with Copy := some (.text s) }

/-- `func (r *Response) Headers(m map[string]string) *Response` — merges
`m` into the header map when one exists, otherwise installs `m` itself. -/
def Response.Headers (r : Response) (m : List (String × String)) : Response :=
  match r.headers with
  | some hs => { r with headers := some (mapMerge hs m) }
  | none => { r with headers := some m }

/-- `func (r *Response) Reader(reader io.Reader) *Response` — streaming
body action that does not close the source. -/
def Response.Reader (r : Response) (s : String) : Response :=
  { r with Copy := some (.reader s) }

/-- `func (r *Response) ReadCloser(reader io.ReadCloser) *Response` —
streaming body action that closes the source when copying finishes. -/
def Response.ReadCloser (r : Response) (s : String) : Response :=
  { r with Copy := some (.readCloser s) }

/-- `func (r *Response) Error() string` — runs the body action into a
fresh buffer; a failure is wrapped, success returns the buffer contents.
When `Copy` is nil the Go code calls a nil function and panics, modelled
as `none`. -/
def Response.Error (r : Response) (env : CopyEnv) : Option String :=
  match r.Copy with
  | none => none
  | some c =>
    match runCopy c env emptyWorld with
    | (_, some e) => some ("reading all bytes from Reader: " ++ e)
    | (w, none) => some (String.join w.body)

/-- The default value of `var DefaultErrorHandler`: wraps the error's
message as the text body of a `http.StatusBadRequest` (400) response. -/
def DefaultErrorHandler (msg : String) : Response :=
  (Code 400).Text msg

/-- The three possible values of the `error` a wrapped handler returns:
nil, a `*Response`, or any other error (carrying its `Error()` string). -/
inductive Outcome where
  | nil
  | response (r : Response)
  | other (msg : String)

/-- The calls the resolver makes on the sink and the process-wide hooks,
in order. -/
inductive Event where
  /-- `w.Header().Set(key, value)` -/
  | headerSet (k v : String)
  /-- `w.WriteHeader(res.Code)` -/
  | writeHeader (code : Int)
  /-- `res.Copy(w)` invoked -/
  | copyInvoked
  /-- `CopyErrorHandler(err)` invoked -/
  | copyFailed (msg : String)
  /-- `DefaultAfterMiddleware(w, r, res)` invoked -/
  | afterHook
deriving DecidableEq, Repr

/-- The `headerSet` events of iterating a header map. -/
def headerEvents (hs : List (String × String)) : List Event :=
  hs.map (fun p => Event.headerSet p.1 p.2)

/-- The event `if err != nil { CopyErrorHandler(err) }` contributes. -/
def copyFailEvents (o : Option String) : List Event :=
  match o with
  | some m => [Event.copyFailed m]
  | none => []

/-- Body of `fireAfterMiddleware` after the resolved `*Response` is in
hand: apply its headers with `Set`, write the status line, then invoke
the body action (if any), the copy-failure observer on failure, and the
after-middleware — or return right after the status line when there is
no body action, as the source's `if res.Copy == nil { return }` does. -/
def fireResolved (env : CopyEnv) (res : Response) (w : World) :
    World × List Event :=
  let hs := res.headers.getD []
  let w1 : World := { w with headerMap := mapMerge w.headerMap hs }
  let w2 : World := { w1 with statuses := w1.statuses ++ [res.Code] }
  match res.Copy with
  | none => (w2, headerEvents hs ++ [Event.writeHeader res.Code])
  | some c =>
    let out := runCopy c env w2
    (out.1,
      headerEvents hs ++ [Event.writeHeader res.Code] ++ [Event.copyInvoked]
        ++ copyFailEvents out.2 ++ [Event.afterHook])

/-- `func fireAfterMiddleware(err error, w http.ResponseWriter, r *http.Request)`:
nil outcome returns at once; a `*Response` is used directly; any other
error goes through the configured classifier. -/
def fireAfterMiddleware (classifier : String → Response) (env : CopyEnv)
    (outcome : Outcome) (w : World) : World × List Event :=
  match outcome with
  | .nil => (w, [])
  | .response r => fireResolved env r w
  | .other msg => fireResolved env (classifier msg) w

/-- `func H(h Handler) http.HandlerFunc` — runs the wrapped handler
(modelled as a world transformer returning an outcome) and resolves what
it returns. -/
def H (h : World → World × Outcome) (classifier : String → Response)
    (env : CopyEnv) (w : World) : World × List Event :=
  let hw := h w
  fireAfterMiddleware classifier env hw.2 hw.1

/-- `type ErrorJSONCode struct { Code string; Status int; Extra any }`. -/
structure ErrorJSONCode where
  Code : String
  Status : Int
  Extra : Option Jval

/-- `func NewCode(code string, status int) *ErrorJSONCode`. -/
def NewCode (code : String) (status : Int) : ErrorJSONCode :=
  { Code := code, Status := status, Extra := none }

/-- `func (e *ErrorJSONCode) JSON(extra ...any) *Response` — the variadic
argument list is a list of Go `any` values (`none` is a nil interface).
Builds `{"code": e.Code}`, adds `"extra"` only when the first variadic
value exists and is non-nil, and wraps it as a JSON response with the
factory's status. -/
def ErrorJSONCode.JSON (e : ErrorJSONCode) (extra : List (Option Jval)) :
    Response :=
  let value : Option Jval :=
    match extra with
    | [] => none
    | v :: _ => v
  let json0 : List (String × Jval) := [("code", Jval.str e.Code)]
  let json1 : List (String × Jval) :=
    match value with
    | some v => mapSet json0 "extra" v
    | none => json0
  (Httpx.Code e.Status).JSON (Jval.obj json1)

/-- Number of `afterHook` events in a trace. -/
def countAfterHook (tr : List Event) : Nat :=
  (tr.filter (fun e => e = Event.afterHook)).length

/-- Number of `writeHeader` (status-line) events in a trace. -/
def countWriteHeader (tr : List Event) : Nat :=
  (tr.filter (fun e => match e with | Event.writeHeader _ => true | _ => false)).length

/-- Number of body-action invocations in a trace. -/
def countCopyInvoked (tr : List Event) : Nat :=
  (tr.filter (fun e => e = Event.copyInvoked)).length

/-! Helper lemmas -/

theorem orElseOpt_none {α : Type} (o : Option α) : orElseOpt o none = o := by
  cases o <;> rfl

theorem mapGet_mapSet {α : Type} (m : List (String × α)) (k k' : String) (v : α) :
    mapGet (mapSet m k v) k' = if k' = k then some v else mapGet m k' := by
  induction m with
  | nil =>
    by_cases h : k = k'
    · subst h; simp [mapSet, mapGet]
    · simp [mapSet, mapGet, h, Ne.symm h]
  | cons p rest ih =>
    by_cases hp : p.1 = k
    · simp only [mapSet, if_pos hp, mapGet]
      by_cases h : k' = k
      · subst h; simp
      · have hp' : p.1 ≠ k' := by rw [hp]; exact Ne.symm h
        simp [mapGet, h, hp', Ne.symm h]
    · simp only [mapSet, if_neg hp, mapGet, ih]
      by_cases h : k' = k
      · subst h
        simp [hp]
      · simp [h]

theorem mapGet_mapMerge {α : Type} (acc m : List (String × α)) (k : String) :
    mapGet (mapMerge acc m) k = orElseOpt (lastGet m k) (mapGet acc k) := by
  induction m generalizing acc with
  | nil => simp [mapMerge, lastGet, orElseOpt]
  | cons p rest ih =>
    have hstep : mapMerge acc (p :: rest) = mapMerge (mapSet acc p.1 p.2) rest := by
      simp [mapMerge]
    rw [hstep, ih]
    cases hrest : lastGet rest k with
    | some v => simp [lastGet, hrest, orElseOpt]
    | none =>
      simp only [lastGet, hrest, orElseOpt, mapGet_mapSet]
      by_cases h : k = p.1
      · simp [h]
      · have h' : p.1 ≠ k := fun hh => h hh.symm
        simp [h, h']

theorem runCopy_statuses (c : BodyCopy) (env : CopyEnv) (w : World) :
    (runCopy c env w).1.statuses = w.statuses := by
  cases c <;> simp only [runCopy] <;> split <;> rfl

theorem runCopy_headerMap (c : BodyCopy) (env : CopyEnv) (w : World) :
    (runCopy c env w).1.headerMap = w.headerMap := by
  cases c <;> simp only [runCopy] <;> split <;> rfl

theorem countAfterHook_append (a b : List Event) :
    countAfterHook (a ++ b) = countAfterHook a + countAfterHook b := by
  simp [countAfterHook, List.filter_append]

theorem countWriteHeader_append (a b : List Event) :
    countWriteHeader (a ++ b) = countWriteHeader a + countWriteHeader b := by
  simp [countWriteHeader, List.filter_append]

theorem countCopyInvoked_append (a b : List Event) :
    countCopyInvoked (a ++ b) = countCopyInvoked a + countCopyInvoked b := by
  simp [countCopyInvoked, List.filter_append]

theorem countAfterHook_headerEvents (hs : List (String × String)) :
    countAfterHook (headerEvents hs) = 0 := by
  induction hs with
  | nil => rfl
  | cons p rest ih => simpa [headerEvents, countAfterHook, List.filter_cons] using ih

theorem countWriteHeader_headerEvents (hs : List (String × String)) :
    countWriteHeader (headerEvents hs) = 0 := by
  induction hs with
  | nil => rfl
  | cons p rest ih => simpa [headerEvents, countWriteHeader, List.filter_cons] using ih

theorem countCopyInvoked_headerEvents (hs : List (String × String)) :
    countCopyInvoked (headerEvents hs) = 0 := by
  induction hs with
  | nil => rfl
  | cons p rest ih => simpa [headerEvents, countCopyInvoked, List.filter_cons] using ih

theorem countAfterHook_nil : countAfterHook [] = 0 := rfl

theorem countWriteHeader_nil : countWriteHeader [] = 0 := rfl

theorem countCopyInvoked_nil : countCopyInvoked [] = 0 := rfl

theorem countAfterHook_cons_writeHeader (c : Int) (tr : List Event) :
    countAfterHook (Event.writeHeader c :: tr) = countAfterHook tr := by
  simp [countAfterHook, List.filter_cons]

theorem countAfterHook_cons_copyInvoked (tr : List Event) :
    countAfterHook (Event.copyInvoked :: tr) = countAfterHook tr := by
  simp [countAfterHook, List.filter_cons]

theorem countAfterHook_cons_afterHook (tr : List Event) :
    countAfterHook (Event.afterHook :: tr) = countAfterHook tr + 1 := by
  simp [countAfterHook, List.filter_cons]

theorem countWriteHeader_cons_writeHeader (c : Int) (tr : List Event) :
    countWriteHeader (Event.writeHeader c :: tr) = countWriteHeader tr + 1 := by
  simp [countWriteHeader, List.filter_cons]

theorem countWriteHeader_cons_copyInvoked (tr : List Event) :
    countWriteHeader (Event.copyInvoked :: tr) = countWriteHeader tr := by
  simp [countWriteHeader, List.filter_cons]

theorem countWriteHeader_cons_afterHook (tr : List Event) :
    countWriteHeader (Event.afterHook :: tr) = countWriteHeader tr := by
  simp [countWriteHeader, List.filter_cons]

theorem countCopyInvoked_cons_writeHeader (c : Int) (tr : List Event) :
    countCopyInvoked (Event.writeHeader c :: tr) = countCopyInvoked tr := by
  simp [countCopyInvoked, List.filter_cons]

theorem countCopyInvoked_cons_copyInvoked (tr : List Event) :
    countCopyInvoked (Event.copyInvoked :: tr) = countCopyInvoked tr + 1 := by
  simp [countCopyInvoked, List.filter_cons]

theorem countCopyInvoked_cons_afterHook (tr : List Event) :
    countCopyInvoked (Event.afterHook :: tr) = countCopyInvoked tr := by
  simp [countCopyInvoked, List.filter_cons]

theorem getLast_cons_concat {α : Type} (a b : α) (l : List α) :
    (a :: (l ++ [b])).getLast? = some b := by
  rw [show a :: (l ++ [b]) = (a :: l) ++ [b] from rfl]
  exact List.getLast?_concat _

theorem countAfterHook_copyFailEvents (o : Option String) :
    countAfterHook (copyFailEvents o) = 0 := by
  cases o <;> rfl

theorem countWriteHeader_copyFailEvents (o : Option String) :
    countWriteHeader (copyFailEvents o) = 0 := by
  cases o <;> rfl

theorem countCopyInvoked_copyFailEvents (o : Option String) :
    countCopyInvoked (copyFailEvents o) = 0 := by
  cases o <;> rfl

theorem fireResolved_statuses (env : CopyEnv) (res : Response) (w : World) :
    (fireResolved env res w).1.statuses = w.statuses ++ [res.Code] := by
  cases hc : res.Copy with
  | none => simp [fireResolved, hc]
  | some c => simp [fireResolved, hc, runCopy_statuses]

theorem fireResolved_headerMap (env : CopyEnv) (res : Response) (w : World) :
    (fireResolved env res w).1.headerMap = mapMerge w.headerMap (res.headers.getD []) := by
  cases hc : res.Copy with
  | none => simp [fireResolved, hc]
  | some c => simp [fireResolved, hc, runCopy_headerMap]

theorem fireResolved_countAfterHook (env : CopyEnv) (res : Response) (w : World) :
    countAfterHook (fireResolved env res w).2 = (if res.Copy.isSome then 1 else 0) := by
  cases hc : res.Copy with
  | none =>
    simp [fireResolved, hc, countAfterHook_append, countAfterHook_headerEvents,
      countAfterHook_cons_writeHeader, countAfterHook_nil]
  | some c =>
    simp [fireResolved, hc, countAfterHook_append, countAfterHook_headerEvents,
      countAfterHook_copyFailEvents, countAfterHook_cons_writeHeader,
      countAfterHook_cons_copyInvoked, countAfterHook_cons_afterHook,
      countAfterHook_nil]

theorem fireResolved_countWriteHeader (env : CopyEnv) (res : Response) (w : World) :
    countWriteHeader (fireResolved env res w).2 = 1 := by
  cases hc : res.Copy with
  | none =>
    simp [fireResolved, hc, countWriteHeader_append, countWriteHeader_headerEvents,
      countWriteHeader_cons_writeHeader, countWriteHeader_nil]
  | some c =>
    simp [fireResolved, hc, countWriteHeader_append, countWriteHeader_headerEvents,
      countWriteHeader_copyFailEvents, countWriteHeader_cons_writeHeader,
      countWriteHeader_cons_copyInvoked, countWriteHeader_cons_afterHook,
      countWriteHeader_nil]

theorem fireResolved_countCopyInvoked (env : CopyEnv) (res : Response) (w : World) :
    countCopyInvoked (fireResolved env res w).2 = (if res.Copy.isSome then 1 else 0) := by
  cases hc : res.Copy with
  | none =>
    simp [fireResolved, hc, countCopyInvoked_append, countCopyInvoked_headerEvents,
      countCopyInvoked_cons_writeHeader, countCopyInvoked_nil]
  | some c =>
    simp [fireResolved, hc, countCopyInvoked_append, countCopyInvoked_headerEvents,
      countCopyInvoked_copyFailEvents, countCopyInvoked_cons_writeHeader,
      countCopyInvoked_cons_copyInvoked, countCopyInvoked_cons_afterHook,
      countCopyInvoked_nil]

theorem fireResolved_getLast (env : CopyEnv) (res : Response) (w : World) :
    (fireResolved env res w).2.getLast? =
      some (if res.Copy.isSome then Event.afterHook else Event.writeHeader res.Code) := by
  cases hc : res.Copy with
  | none => simp [fireResolved, hc, List.getLast?_concat, getLast_cons_concat]
  | some c => simp [fireResolved, hc, List.getLast?_concat, getLast_cons_concat]

theorem fireResolved_trace (env : CopyEnv) (res : Response) (w : World) :
    ∃ tail, (fireResolved env res w).2 =
      headerEvents (res.headers.getD []) ++ Event.writeHeader res.Code :: tail := by
  cases hc : res.Copy with
  | none => exact ⟨[], by simp [fireResolved, hc]⟩
  | some c =>
    refine ⟨Event.copyInvoked ::
      (copyFailEvents (runCopy c env
        { w with headerMap := mapMerge w.headerMap (res.headers.getD []),
                 statuses := w.statuses ++ [res.Code] }).2 ++ [Event.afterHook]), ?_⟩
    simp [fireResolved, hc, List.append_assoc]

/-! Claim theorems -/

/-- C1 counterexample: the body-less Result `Code 204` goes through the
Result path (the handler returned it, non-nil), yet the resolver fires
the after-hook zero times, not once — `fireAfterMiddleware` returns
right after the status line when `Copy` is nil, skipping
`DefaultAfterMiddleware`. -/
theorem c1_counterexample :
    countAfterHook (fireAfterMiddleware DefaultErrorHandler
      { jsonEncodeFails := false, ioCopyFails := false }
      (Outcome.response (Code 204)) emptyWorld).2 ≠ 1 ∧
    countAfterHook (fireAfterMiddleware DefaultErrorHandler
      { jsonEncodeFails := false, ioCopyFails := false }
      (Outcome.response (Code 204)) emptyWorld).2 = 0 := by
  exact ⟨by decide, by decide⟩

/-- C1 (amended): on the Result path the after-hook fires exactly once
and as the very last action — after headers, status line and body
handling, even when the body copy fails — **when the resolved Result has
a body action**; when the Result has no body action the resolver returns
right after the status line and the after-hook does not fire at all.
Both non-nil outcome shapes resolve through `fireResolved`. -/
theorem c1_after_hook_once_with_body (env : CopyEnv) (res : Response) (w : World) :
    countAfterHook (fireResolved env res w).2 = (if res.Copy.isSome then 1 else 0) ∧
    (fireResolved env res w).2.getLast? =
      some (if res.Copy.isSome then Event.afterHook else Event.writeHeader res.Code) ∧
    (∀ classifier : String → Response,
      fireAfterMiddleware classifier env (Outcome.response res) w = fireResolved env res w) ∧
    (∀ (classifier : String → Response) (msg : String),
      fireAfterMiddleware classifier env (Outcome.other msg) w =
        fireResolved env (classifier msg) w) :=
  ⟨fireResolved_countAfterHook env res w, fireResolved_getLast env res w,
    fun _ => rfl, fun _ _ => rfl⟩

/-- C2: on any single invocation of the resolver the status line is
written at most once and the body action is invoked at most once, for
every outcome, classifier, environment and starting sink. -/
theorem c2_at_most_one_status_and_copy (classifier : String → Response)
    (env : CopyEnv) (o : Outcome) (w : World) :
    countWriteHeader (fireAfterMiddleware classifier env o w).2 ≤ 1 ∧
    countCopyInvoked (fireAfterMiddleware classifier env o w).2 ≤ 1 := by
  cases o with
  | nil => exact ⟨Nat.zero_le 1, Nat.zero_le 1⟩
  | response r =>
    refine ⟨?_, ?_⟩
    · rw [show fireAfterMiddleware classifier env (Outcome.response r) w =
          fireResolved env r w from rfl, fireResolved_countWriteHeader]
    · rw [show fireAfterMiddleware classifier env (Outcome.response r) w =
          fireResolved env r w from rfl, fireResolved_countCopyInvoked]
      split <;> simp
  | other msg =>
    refine ⟨?_, ?_⟩
    · rw [show fireAfterMiddleware classifier env (Outcome.other msg) w =
          fireResolved env (classifier msg) w from rfl, fireResolved_countWriteHeader]
    · rw [show fireAfterMiddleware classifier env (Outcome.other msg) w =
          fireResolved env (classifier msg) w from rfl, fireResolved_countCopyInvoked]
      split <;> simp

/-- C3: a handler that returns the Result `R` produces a response whose
status line is exactly `R.Code`, whose header map agrees with `R`'s
header set under last-write-wins lookup, and whose trace applies every
header before the status line is written. -/
theorem c3_resolver_honors_result (classifier : String → Response)
    (env : CopyEnv) (R : Response) :
    (H (fun w => (w, Outcome.response R)) classifier env emptyWorld).1.statuses =
      [R.Code] ∧
    (∀ k, mapGet
        (H (fun w => (w, Outcome.response R)) classifier env emptyWorld).1.headerMap k =
      lastGet (R.headers.getD []) k) ∧
    (∃ tail, (H (fun w => (w, Outcome.response R)) classifier env emptyWorld).2 =
      headerEvents (R.headers.getD []) ++ Event.writeHeader R.Code :: tail) := by
  have hH : H (fun w => (w, Outcome.response R)) classifier env emptyWorld =
      fireResolved env R emptyWorld := rfl
  refine ⟨?_, ?_, ?_⟩
  · rw [hH, fireResolved_statuses]; rfl
  · intro k
    rw [hH, fireResolved_headerMap, mapGet_mapMerge]
    show orElseOpt (lastGet (R.headers.getD []) k) (mapGet [] k) = _
    rw [show mapGet ([] : List (String × String)) k = none from rfl, orElseOpt_none]
  · rw [hH]; exact fireResolved_trace env R emptyWorld

/-- C4: for every non-Result error, the resolver's output — final sink
state and event trace alike — equals the output of resolving the Result
the configured classifier produces from that error directly. -/
theorem c4_classifier_refinement (classifier : String → Response)
    (env : CopyEnv) (msg : String) (w : World) :
    fireAfterMiddleware classifier env (Outcome.other msg) w =
      fireAfterMiddleware classifier env (Outcome.response (classifier msg)) w := rfl

/-- C5: `NewCode(c, s).JSON(extra...)` builds a Result with status `s`,
a `Content-Type: application/json` header, and JSON body
`obj [("code", c)]`; the `"extra"` field is added exactly when a first
variadic argument is supplied and is non-nil, and the key is absent —
not null — otherwise. -/
theorem c5_error_code_json (c : String) (s : Int) :
    ((NewCode c s).JSON []).Code = s ∧
    ((NewCode c s).JSON []).headers = some [("Content-Type", "application/json")] ∧
    ((NewCode c s).JSON []).Copy =
      some (BodyCopy.json (Jval.obj [("code", Jval.str c)])) ∧
    ((NewCode c s).JSON [none]).Copy =
      some (BodyCopy.json (Jval.obj [("code", Jval.str c)])) ∧
    (∀ v : Jval, ((NewCode c s).JSON [some v]).Code = s ∧
      ((NewCode c s).JSON [some v]).Copy =
        some (BodyCopy.json (Jval.obj [("code", Jval.str c), ("extra", v)]))) :=
  ⟨rfl, rfl, rfl, rfl, fun _ => ⟨rfl, rfl⟩⟩

/-- C6: `Headers m` merges `m` into the existing header set — keys of
`m` take their (last) value from `m`, all other previously set keys keep
their value, nothing is cleared — and chaining
`Headers [("A","1")]` then `Headers [("A","2"),("B","3")]` leaves
exactly `[("A","2"),("B","3")]`. -/
theorem c6_with_headers_merge (r : Response) (m : List (String × String)) :
    (r.Headers m).headers =
      some (match r.headers with
            | some hs => mapMerge hs m
            | none => m) ∧
    (∀ hs k, mapGet (mapMerge hs m) k = orElseOpt (lastGet m k) (mapGet hs k)) ∧
    (((Code 200).Headers [("A", "1")]).Headers [("A", "2"), ("B", "3")]).headers =
      some [("A", "2"), ("B", "3")] := by
  refine ⟨?_, fun hs k => mapGet_mapMerge hs m k, by decide⟩
  cases hr : r.headers <;> simp [Response.Headers, hr]

/-- C7: the body action `ReadCloser` installs closes the underlying
source on every exit path: after `runCopy` the source is closed whether
the streaming copy failed or not, the copy reports no error when the
sink accepts the bytes, and reports an error when it does not. -/
theorem c7_read_closer_always_closes (r : Response) (s : String)
    (env : CopyEnv) (w : World) :
    (r.ReadCloser s).Copy = some (BodyCopy.readCloser s) ∧
    (runCopy (BodyCopy.readCloser s) env w).1.readerClosed = true ∧
    (runCopy (BodyCopy.readCloser s) { env with ioCopyFails := false } w).2 = none ∧
    (runCopy (BodyCopy.readCloser s) { env with ioCopyFails := true } w).2.isSome = true := by
  refine ⟨rfl, ?_, rfl, rfl⟩
  cases he : env.ioCopyFails <;> simp [runCopy, he]

/-- C8: when the wrapped handler returns nothing (nil), the resolver
leaves the sink exactly as it found it and performs no action at all:
no header write, no status line, no body write, no hook. -/
theorem c8_nil_outcome_no_writes (classifier : String → Response)
    (env : CopyEnv) (w : World) :
    fireAfterMiddleware classifier env Outcome.nil w = (w, []) := rfl

/-- C9: `Error()` runs the stored body action, so it is total exactly
when a body action has been set; with `Copy` nil it calls a nil function
value and panics (modelled as `none`) — in particular `Code 404` has no
body action and `(Code 404).Error` panics instead of returning a
string. -/
theorem c9_error_panics_without_body (r : Response) (env : CopyEnv) :
    (r.Error env = none ↔ r.Copy = none) ∧
    (Code 404).Copy = none ∧
    (Code 404).Error env = none := by
  have herr : ∀ c, r.Copy = some c → ∃ s, r.Error env = some s := by
    intro c hc
    rcases hrc : runCopy c env emptyWorld with ⟨w', e⟩
    cases e with
    | none => exact ⟨String.join w'.body, by simp [Response.Error, hc, hrc]⟩
    | some m =>
      exact ⟨"reading all bytes from Reader: " ++ m, by simp [Response.Error, hc, hrc]⟩
  refine ⟨⟨?_, ?_⟩, rfl, rfl⟩
  · intro h
    cases hc : r.Copy with
    | none => rfl
    | some c =>
      rcases herr c hc with ⟨s, hs⟩
      rw [hs] at h
      cases h
  · intro h
    simp [Response.Error, h]

/-- C10: the body-setting builder calls overwrite one another — after
`JSON` then `Text` the body action is the plain-text one — while the
headers set by the earlier `JSON` call (Content-Type: application/json)
are kept untouched. -/
theorem c10_body_overwrite_keeps_headers (r : Response) (cd : Int)
    (v : Jval) (s : String) :
    ((r.JSON v).Text s).Copy = some (BodyCopy.text s) ∧
    ((r.JSON v).Text s).headers = (r.JSON v).headers ∧
    (((Code cd).JSON v).Text s).Copy = some (BodyCopy.text s) ∧
    (((Code cd).JSON v).Text s).headers =
      some [("Content-Type", "application/json")] ∧
    mapGet ((((Code cd).JSON v).Text s).headers.getD []) "Content-Type" =
      some "application/json" :=
  ⟨rfl, rfl, rfl, rfl, rfl⟩

end Httpx
